import Mathlib

/-!
# Verification of the Jointist data-pipeline core

Shallow embedding of `End2End/data/_data_modules.py` (waveform segment
loading, batch collation, multi-track mixing, note-event → frame-roll
encoding, and instrument-stem selection), together with theorems settling
the specification claims.

Conventions of the embedding:
* Python floats are modelled exactly as `ℚ` (or `ℝ` where a square root
  occurs), Python ints as `ℤ`/`ℕ`.
* `int(x)` is truncation toward zero (`pyInt`).
* NumPy single-index access admits negative indices in `[-n, n)` which wrap
  by `+ n`; anything else raises `IndexError`, modelled by `Option` (`npIndex`).
* Python slicing `a[i:j]` clamps and never errors (`pySlice`).
-/

namespace Jointist

/-- Python `int(x)` on an exact rational: truncation toward zero. -/
def pyInt (q : ℚ) : ℤ :=
  if 0 ≤ q then ⌊q⌋ else ⌈q⌉

/-- NumPy single-index semantics for an axis of length `n`: an index in
`[0, n)` is used as is, an index in `[-n, 0)` wraps by adding `n`, and any
other index raises `IndexError` (`none`). -/
def npIndex (n : ℕ) (i : ℤ) : Option ℕ :=
  if 0 ≤ i ∧ i < (n : ℤ) then some i.toNat
  else if -(n : ℤ) ≤ i ∧ i < 0 then some (i + n).toNat
  else none

/-- Python slice-bound normalization for an axis of length `n`: a negative
bound is shifted by `n` then clamped to `0`; a nonnegative bound is clamped
to `n`. -/
def pySliceBound (n : ℕ) (a : ℤ) : ℕ :=
  if a < 0 then (a + n).toNat else min a.toNat n

/-- Python slice `l[a : b]` (step 1): clamped, never raising. -/
def pySlice {α : Type} (l : List α) (a b : ℤ) : List α :=
  (l.take (pySliceBound l.length b)).drop (pySliceBound l.length a)

/-- Modelled from the spec: `int16_to_float32` (imported from
`jointist.utils`, which is not under `src/`). §3 of the spec describes the
stored track as a "raw PCM sample sequence (converted to normalized
floating-point amplitude)": the customary conversion divides the 16-bit
integer sample by `32767`. Only `int16_to_float32 0 = 0` and length
preservation matter for the claims below. -/
def int16_to_float32 (x : ℤ) : ℚ :=
  (x : ℚ) / 32767

/-- Librosa `fix_length(data, size)`: truncate or right-pad with zeros
to exactly `size` elements. -/
def fix_length (l : List ℚ) (size : ℕ) : List ℚ :=
  if size ≤ l.length then l.take size
  else l ++ List.replicate (size - l.length) 0

/-- The waveform-segment loading step of `Dataset.__getitem__`
(`_data_modules.py` lines 186–210): slice
`hf['waveform'][start_sample : end_sample]` with
`start_sample = int(start_time * sample_rate)` and
`end_sample = start_sample + segment_samples`, convert with
`int16_to_float32`, and when the slice is short record its length as
`valid_length` and pad with `fix_length`; otherwise `valid_length` is
`segment_samples`.  Returns `(waveform, valid_length)`. -/
def loadSegment (stored : List ℤ) (sample_rate : ℕ) (start_time : ℚ)
    (segment_samples : ℕ) : List ℚ × ℕ :=
  let start_sample : ℤ := pyInt (start_time * sample_rate)
  let end_sample : ℤ := start_sample + segment_samples
  let waveform := (pySlice stored start_sample end_sample).map int16_to_float32
  if waveform.length < segment_samples then
    (fix_length waveform segment_samples, waveform.length)
  else
    (waveform, segment_samples)

lemma getD_replicate_zero (k i : ℕ) : (List.replicate k (0 : ℚ)).getD i 0 = 0 := by
  rcases lt_or_le i k with h | h
  · rw [List.getD_eq_getElem _ _ (by simpa using h)]
    simp
  · exact List.getD_eq_default _ _ (by simpa using h)

lemma pyInt_nonneg {q : ℚ} (h : 0 ≤ q) : 0 ≤ pyInt q := by
  unfold pyInt
  rw [if_pos h]
  exact Int.floor_nonneg.mpr h

/-- Claim C8: For every valid segment window (`0 ≤ start_time`), the returned
waveform has exactly `segment_samples` elements, `valid_length` is at most
`segment_samples` and equals the true number of stored samples available in
the window, and every element from position `valid_length` on is zero
(right zero-padding). -/
theorem loadSegment_spec (stored : List ℤ) (sr : ℕ) (t : ℚ) (seg : ℕ)
    (ht : 0 ≤ t) :
    (loadSegment stored sr t seg).1.length = seg ∧
    (loadSegment stored sr t seg).2 ≤ seg ∧
    (loadSegment stored sr t seg).2
      = min seg (stored.length - (pyInt (t * sr)).toNat) ∧
    ∀ i, (loadSegment stored sr t seg).2 ≤ i →
      (loadSegment stored sr t seg).1.getD i 0 = 0 := by
  have h0 : (0 : ℤ) ≤ pyInt (t * sr) := pyInt_nonneg (by positivity)
  set n := stored.length with hn
  set sZ := pyInt (t * sr) with hsZ
  set s := sZ.toNat with hs
  have hb1 : pySliceBound n sZ = min s n := by
    unfold pySliceBound
    rw [if_neg (by omega)]
  have hb2 : pySliceBound n (sZ + seg) = min (s + seg) n := by
    unfold pySliceBound
    rw [if_neg (by omega)]
    congr 1
    omega
  have hlen : ((pySlice stored sZ (sZ + seg)).map int16_to_float32).length
      = min (s + seg) n - min s n := by
    simp only [List.length_map, pySlice, hb1, hb2, List.length_drop,
      List.length_take, ← hn]
    omega
  set w := (pySlice stored sZ (sZ + seg)).map int16_to_float32 with hw
  have hL : w.length ≤ seg := by omega
  have hload : loadSegment stored sr t seg
      = if w.length < seg then (fix_length w seg, w.length) else (w, seg) := rfl
  rw [hload]
  by_cases hc : w.length < seg
  · rw [if_pos hc]
    simp only [Prod.fst, Prod.snd]
    have hfix : fix_length w seg = w ++ List.replicate (seg - w.length) 0 := by
      unfold fix_length
      rw [if_neg (by omega)]
    refine ⟨?_, by omega, by omega, ?_⟩
    · rw [hfix]
      simp only [List.length_append, List.length_replicate]
      omega
    · intro i hi
      rw [hfix, List.getD_append_right _ _ _ _ (by omega)]
      exact getD_replicate_zero _ _
  · rw [if_neg hc]
    simp only [Prod.fst, Prod.snd]
    refine ⟨by omega, le_refl _, by omega, ?_⟩
    intro i hi
    exact List.getD_eq_default _ _ (by omega)

/-- Witness for `loadSegment_spec` at a concrete input. -/
theorem loadSegment_spec_witness :
    (loadSegment [100, 200, 300] 1 1 4).1.length = 4 :=
  (loadSegment_spec [100, 200, 300] 1 1 4 (by norm_num)).1

/-! ## Batch collation (`collate_fn`, lines 289–308) -/

/-- An `ExampleDict`: a Python dict from tensor-key name to tensor, modelled
as an insertion-ordered association list. -/
def ExampleDict : Type := List (String × List ℚ)

/-- Python `d[key]` on an `ExampleDict`: `some` value, or `none` for the
`KeyError` raised on a missing key. -/
def dictLookup (d : ExampleDict) (k : String) : Option (List ℚ) :=
  (d.find? (fun p => p.1 == k)).map Prod.snd

/-- The inner comprehension `[data_dict[key] for data_dict in list_data_dict]`:
collects `key`'s tensor from every example, propagating a `KeyError`. -/
def collectKey (ds : List ExampleDict) (k : String) : Option (List (List ℚ)) :=
  match ds with
  | [] => some []
  | d :: rest =>
    match dictLookup d k, collectKey rest k with
    | some v, some vs => some (v :: vs)
    | _, _ => none

/-- The loop `for key in list_data_dict[0].keys()`: builds the batched dict
entry by entry, propagating a `KeyError`. -/
def collateKeys (ds : List ExampleDict) :
    List String → Option (List (String × List (List ℚ)))
  | [] => some []
  | k :: ks =>
    match collectKey ds k, collateKeys ds ks with
    | some vs, some out => some ((k, vs) :: out)
    | _, _ => none

/-- Function `collate_fn` (lines 289–308): stacks the tensors of every example under
each key of the **first** example; `list_data_dict[0]` on an empty batch and
any missing key raise (`none`). -/
def collate_fn (list_data_dict : List ExampleDict) :
    Option (List (String × List (List ℚ))) :=
  match list_data_dict with
  | [] => none
  | d0 :: _ => collateKeys list_data_dict (d0.map Prod.fst)

lemma collectKey_eq_none_of_mem {ds : List ExampleDict} {d : ExampleDict}
    {k : String} (hd : d ∈ ds) (h : dictLookup d k = none) :
    collectKey ds k = none := by
  induction ds with
  | nil => cases hd
  | cons x xs ih =>
    rcases List.mem_cons.mp hd with rfl | hmem
    · unfold collectKey
      rw [h]
    · unfold collectKey
      rw [ih hmem]
      cases dictLookup x k <;> rfl

lemma collateKeys_eq_none_of_mem {ds : List ExampleDict} {ks : List String}
    {k : String} (hk : k ∈ ks) (h : collectKey ds k = none) :
    collateKeys ds ks = none := by
  induction ks with
  | nil => cases hk
  | cons x xs ih =>
    rcases List.mem_cons.mp hk with rfl | hmem
    · unfold collateKeys
      rw [h]
    · unfold collateKeys
      rw [ih hmem]
      cases collectKey ds x <;> rfl

lemma collateKeys_keys {ds : List ExampleDict} :
    ∀ {ks : List String} {out : List (String × List (List ℚ))},
      collateKeys ds ks = some out → out.map Prod.fst = ks := by
  intro ks
  induction ks with
  | nil =>
    intro out h
    unfold collateKeys at h
    cases h
    rfl
  | cons x xs ih =>
    intro out h
    unfold collateKeys at h
    cases hv : collectKey ds x with
    | none => rw [hv] at h; cases h
    | some vs =>
      rw [hv] at h
      cases hr : collateKeys ds xs with
      | none => rw [hr] at h; cases h
      | some rest =>
        rw [hr] at h
        cases h
        simpa using ih hr

/-- Claim C2, counterexample: Two `ExampleDict`s with differing key sets: the
second example's extra key `"b"` is absent from the first example, yet
`collate_fn` succeeds and silently drops it instead of failing. -/
theorem collate_fn_extra_key_not_fatal :
    collate_fn [[("a", [1])], [("a", [2]), ("b", [3])]]
        = some [("a", [[1], [2]])] ∧
    dictLookup [("a", [1])] "b" = none ∧
    dictLookup [("a", [2]), ("b", [3])] "b" = some [3] :=
  ⟨rfl, rfl, rfl⟩

/-- Claim C2, amended: A key of the first example missing from any example
aborts collation with a fatal `KeyError` (never defaulted), and a successful
batch carries exactly the first example's key set — so a key present only in
a later example is silently dropped, not surfaced as an error. -/
theorem collate_fn_amended :
    (∀ (ds : List ExampleDict) (d0 : ExampleDict)
        (rest : List ExampleDict) (k : String),
      ds = d0 :: rest → k ∈ d0.map Prod.fst →
      (∃ d ∈ ds, dictLookup d k = none) → collate_fn ds = none) ∧
    (∀ (ds : List ExampleDict) (d0 : ExampleDict)
        (rest : List ExampleDict) (out : List (String × List (List ℚ))),
      ds = d0 :: rest → collate_fn ds = some out →
      out.map Prod.fst = d0.map Prod.fst) := by
  constructor
  · rintro ds d0 rest k rfl hk ⟨d, hd, hnone⟩
    unfold collate_fn
    exact collateKeys_eq_none_of_mem hk (collectKey_eq_none_of_mem hd hnone)
  · rintro ds d0 rest out rfl h
    unfold collate_fn at h
    exact collateKeys_keys h

/-- Witness for `collate_fn_amended` at a concrete input: the second example
lacks the first example's key `"a"`, so collation fails. -/
theorem collate_fn_amended_witness :
    collate_fn [[("a", [1])], [("c", [2])]] = none :=
  collate_fn_amended.1 [[("a", [1])], [("c", [2])]] [("a", [1])] [[("c", [2])]]
    "a" rfl (by simp)
    ⟨[("c", [2])], by simp, rfl⟩

/-! ## Multi-track mixing (`energy` and `CompoundDataset.__getitem__`,
lines 396–397 and 483–496) -/

/-- Source `energy(x, valid_length) = np.sum(x ** 2) / valid_length` (lines 396–397). -/
def energy (x : List ℚ) (valid_length : ℕ) : ℚ :=
  (x.map (fun v => v ^ 2)).sum / valid_length

/-- One stem as consumed by the mixer: its loaded waveform and
`valid_length`. -/
structure Stem where
  waveform : List ℚ
  valid_length : ℕ

/-- The scaling-ratio computation of `CompoundDataset.__getitem__`
(lines 485–491), in source order: `ratio = 0` if `e1 == 0` else
`(e2 / e1) ** 0.5`, then overridden to `1` if `e2 == 0`. -/
noncomputable def mixRatio (e1 e2 : ℚ) : ℝ :=
  let ratio : ℝ := if e1 = 0 then 0 else Real.sqrt ((e2 : ℝ) / (e1 : ℝ))
  if e2 = 0 then 1 else ratio

/-- The waveform-mixing tail of `CompoundDataset.__getitem__`
(lines 483–496): `e1`/`e2` are the energies of stems `0` and `3`,
`waveform = ratio * w₀`, then `waveform += wₖ` for `k ∈ [1, 2, 4]`. -/
noncomputable def compoundMixWaveform (stems : Fin 5 → Stem) : List ℝ :=
  let e1 := energy (stems 0).waveform (stems 0).valid_length
  let e2 := energy (stems 3).waveform (stems 3).valid_length
  let ratio := mixRatio e1 e2
  let w0 : List ℝ := (stems 0).waveform.map (fun v : ℚ => ratio * (v : ℝ))
  List.foldl
    (fun acc k => acc.zipWith (fun a b => a + b)
      ((stems k).waveform.map (fun v : ℚ => (v : ℝ))))
    w0 [1, 2, 4]

/-- The ratio rule in the words of spec §4.4: `sqrt(e_T / e_R)` when
`e_R > 0`, else `0`, overridden to `1` whenever `e_T = 0`. -/
noncomputable def specRatio (eR eT : ℚ) : ℝ :=
  if eT = 0 then 1
  else if 0 < eR then Real.sqrt ((eT : ℝ) / (eR : ℝ))
  else 0

lemma energy_nonneg (x : List ℚ) (v : ℕ) : 0 ≤ energy x v := by
  unfold energy
  apply div_nonneg _ (by positivity)
  apply List.sum_nonneg
  intro a ha
  rcases List.mem_map.mp ha with ⟨b, _, rfl⟩
  positivity

lemma mixRatio_eq_specRatio {e1 e2 : ℚ} (h1 : 0 ≤ e1) :
    mixRatio e1 e2 = specRatio e1 e2 := by
  unfold mixRatio specRatio
  by_cases h2 : e2 = 0
  · simp [h2]
  · rcases eq_or_lt_of_le h1 with h | h
    · simp [h2, ← h]
    · have h0 : e1 ≠ 0 := ne_of_gt h
      simp [h2, h0, h]

/-- Claim C3, counterexample: The claim says the ratio is `0` whenever
`e_R = 0`, *for every* `e_T`; but at `e_R = 0, e_T = 0` the `e_T = 0`
override (applied last in the code) forces the ratio to `1`. -/
theorem mixRatio_zero_zero : mixRatio 0 0 = 1 ∧ (1 : ℝ) ≠ 0 := by
  constructor
  · unfold mixRatio
    norm_num
  · norm_num

/-- Claim C3, amended: The mixer's scaling ratio satisfies:
`e_R = 4, e_T = 1 → ratio = 1/2`; `e_R = 0 → ratio = 0` for every
`e_T ≠ 0` (at `e_T = 0` the override yields `1` instead); and
`e_T = 0, e_R > 0 → ratio = 1`. -/
theorem mixRatio_test_vectors :
    mixRatio 4 1 = 1 / 2 ∧
    (∀ eT : ℚ, eT ≠ 0 → mixRatio 0 eT = 0) ∧
    (∀ eR : ℚ, 0 < eR → mixRatio eR 0 = 1) := by
  refine ⟨?_, ?_, ?_⟩
  · unfold mixRatio
    norm_num
    rw [show (4 : ℝ) = 2 ^ 2 by norm_num, Real.sqrt_sq (by norm_num)]
    norm_num
  · intro eT h
    unfold mixRatio
    simp [h]
  · intro eR h
    unfold mixRatio
    norm_num

/-- Witness for `mixRatio_test_vectors` at concrete inputs. -/
theorem mixRatio_test_vectors_witness :
    mixRatio 0 9 = 0 ∧ mixRatio 5 0 = 1 :=
  ⟨mixRatio_test_vectors.2.1 9 (by norm_num),
   mixRatio_test_vectors.2.2 5 (by norm_num)⟩

/-- Claim C4: For stems of a common waveform length, the mixed output equals
`ratio · R` plus the unscaled sum of the pass-through stems' waveforms
(stems 1, 2 and 4), elementwise, where the ratio follows the spec rule
(`specRatio`): `sqrt(e_T/e_R)` when `e_R > 0`, else `0`, overridden to `1`
whenever `e_T = 0`, with `e_R`/`e_T` the energies of the reference stem 0
and target stem 3. Only the reference stem is rescaled. -/
theorem compoundMix_spec (stems : Fin 5 → Stem) (L : ℕ)
    (hlen : ∀ k, (stems k).waveform.length = L) :
    (compoundMixWaveform stems).length = L ∧
    ∀ i, i < L →
      (compoundMixWaveform stems).getD i 0
        = specRatio (energy (stems 0).waveform (stems 0).valid_length)
              (energy (stems 3).waveform (stems 3).valid_length)
            * ((stems 0).waveform.getD i 0 : ℝ)
          + (((stems 1).waveform.getD i 0 : ℝ)
             + ((stems 2).waveform.getD i 0 : ℝ)
             + ((stems 4).waveform.getD i 0 : ℝ)) := by
  set e1 := energy (stems 0).waveform (stems 0).valid_length with he1
  set e2 := energy (stems 3).waveform (stems 3).valid_length with he2
  have hratio : mixRatio e1 e2 = specRatio e1 e2 :=
    mixRatio_eq_specRatio (energy_nonneg _ _)
  set r := mixRatio e1 e2 with hr
  have hexp : compoundMixWaveform stems
      = ((((stems 0).waveform.map (fun v : ℚ => r * (v : ℝ))).zipWith
              (fun a b => a + b)
              ((stems 1).waveform.map (fun v : ℚ => (v : ℝ)))).zipWith
            (fun a b => a + b)
            ((stems 2).waveform.map (fun v : ℚ => (v : ℝ)))).zipWith
          (fun a b => a + b)
          ((stems 4).waveform.map (fun v : ℚ => (v : ℝ))) := rfl
  have hL0 := hlen 0
  have hL1 := hlen 1
  have hL2 := hlen 2
  have hL4 := hlen 4
  have hlen' : (compoundMixWaveform stems).length = L := by
    rw [hexp]
    simp only [List.length_zipWith, List.length_map, hL0, hL1, hL2, hL4,
      min_self]
  refine ⟨hlen', ?_⟩
  intro i hi
  have hi' : i < (compoundMixWaveform stems).length := by omega
  rw [List.getD_eq_get _ _ hi']
  have hgoal : (compoundMixWaveform stems).get ⟨i, hi'⟩
      = r * ((stems 0).waveform.getD i 0 : ℝ)
        + ((stems 1).waveform.getD i 0 : ℝ)
        + ((stems 2).waveform.getD i 0 : ℝ)
        + ((stems 4).waveform.getD i 0 : ℝ) := by
    simp only [List.get_eq_getElem, hexp, List.getElem_zipWith, List.getElem_map]
    rw [List.getD_eq_getElem _ _ (by omega), List.getD_eq_getElem _ _ (by omega),
      List.getD_eq_getElem _ _ (by omega), List.getD_eq_getElem _ _ (by omega)]
  rw [hgoal, hratio]
  ring

/-- Witness for `compoundMix_spec` at a concrete input. -/
theorem compoundMix_spec_witness :
    (compoundMixWaveform (fun _ => ⟨[1, 2], 2⟩)).length = 2 :=
  (compoundMix_spec (fun _ => ⟨[1, 2], 2⟩) 2 (fun _ => rfl)).1

/-! ## Note-event → frame-roll encoding
(`DatasetInstrumentsCluster.__getitem__`, lines 1220–1297, and
`get_single_note_onset_roll`, lines 710–733) -/

/-- Modelled from the spec: `BEGIN_NOTE` is imported from `jointist.config`,
which is not under `src/`. `pkl2sparsepianoroll_MSD.py` instantiates the
same `TargetProcessor` with `begin_note=21` (MIDI note of the lowest piano
key), matching the spec's fixed piano note range. -/
def BEGIN_NOTE : ℕ := 21

/-- Modelled from the spec: `CLASSES_NUM` is imported from
`jointist.config`, which is not under `src/`. `pkl2sparsepianoroll_MSD.py`
instantiates the same `TargetProcessor` with `classes_num=88` (88 piano
keys), matching the docstring shapes `(1001, 88)` in `_data_modules.py`. -/
def CLASSES_NUM : ℕ := 88

/-- A note event as stored in the notes pickle:
`{'start': float, 'end': float, 'pitch': int}` (MIDI pitch, a natural
number). -/
structure NoteEv where
  start : ℚ
  end_ : ℚ
  pitch : ℕ

/-- A NumPy 2-D array of floats: its two dimensions and its entries. -/
structure NpRoll where
  rows : ℕ
  cols : ℕ
  entry : ℕ → ℕ → ℚ

/-- NumPy `np.zeros((m, n))`. -/
def np_zeros (m n : ℕ) : NpRoll :=
  ⟨m, n, fun _ _ => 0⟩

/-- NumPy `roll[i, j] = v`: single (possibly negative, wrapping) index on
both axes; `none` is `IndexError`. -/
def npSetCell (r : NpRoll) (i j : ℤ) (v : ℚ) : Option NpRoll :=
  match npIndex r.rows i, npIndex r.cols j with
  | some a, some b =>
    some ⟨r.rows, r.cols, fun x y => if x = a ∧ y = b then v else r.entry x y⟩
  | _, _ => none

/-- NumPy `roll[b : e, j] = v`: a slice on the row axis (clamping, never
raising) and a single index on the column axis. -/
def npSetSpan (r : NpRoll) (b e : ℤ) (j : ℤ) (v : ℚ) : Option NpRoll :=
  match npIndex r.cols j with
  | some c =>
    some ⟨r.rows, r.cols,
      fun x y =>
        if pySliceBound r.rows b ≤ x ∧ x < pySliceBound r.rows e ∧ y = c
        then v else r.entry x y⟩
  | none => none

/-- Source `frames_num = int(self.frames_per_second * self.segment_seconds) + 1`
(line 1220). -/
def framesNum (segment_seconds : ℚ) (frames_per_second : ℕ) : ℕ :=
  (pyInt (frames_per_second * segment_seconds) + 1).toNat

/-- The window-overlap test of lines 1241–1242: the note's onset or offset
lies strictly inside the open window `(start_time, start_time +
segment_seconds)`. -/
def overlaps (start_time segment_seconds : ℚ) (n : NoteEv) : Prop :=
  (start_time < n.start ∧ n.start < start_time + segment_seconds) ∨
  (start_time < n.end_ ∧ n.end_ < start_time + segment_seconds)

instance (st ss : ℚ) (n : NoteEv) : Decidable (overlaps st ss n) :=
  decidable_of_iff ((st < n.start ∧ n.start < st + ss) ∨
    (st < n.end_ ∧ n.end_ < st + ss)) Iff.rfl

/-- Source `bgn_frame = max(0, int((note_event['start'] - start_time) *
frames_per_second))` (lines 1244–1245). -/
def bgn_frame (start_time : ℚ) (frames_per_second : ℕ) (n : NoteEv) : ℕ :=
  (max 0 (pyInt ((n.start - start_time) * frames_per_second))).toNat

/-- Source `end_frame = min(int((note_event['end'] - start_time) *
frames_per_second), frames_num)` (lines 1247–1248). -/
def end_frame (start_time segment_seconds : ℚ) (frames_per_second : ℕ)
    (n : NoteEv) : ℤ :=
  min (pyInt ((n.end_ - start_time) * frames_per_second))
    (framesNum segment_seconds frames_per_second)

/-- The four rolls being filled for the current stem: the shared mixture
rolls and the per-stem rolls. -/
structure EncodeState where
  mixture_onset_roll : NpRoll
  mixture_frame_roll : NpRoll
  sep_onset_roll : NpRoll
  sep_frame_roll : NpRoll

/-- The loop body for one note event (lines 1240–1261): skip unless the
overlap test passes; compute clamped frames and the pitch column
`bgn_pitch = pitch - begin_note`; guard only on the **upper** bound
`bgn_pitch < piano_notes_num`; write the onset cells and frame spans, and
for a note starting before the window and ending inside it additionally
write the frame span from row `0`. -/
def encodeNote (st ss : ℚ) (f : ℕ) (s : EncodeState) (n : NoteEv) :
    Option EncodeState :=
  if overlaps st ss n then
    if (n.pitch : ℤ) - BEGIN_NOTE < (CLASSES_NUM : ℤ) then
      (npSetCell s.mixture_onset_roll (bgn_frame st f n)
          ((n.pitch : ℤ) - BEGIN_NOTE) 1).bind fun mo =>
      (npSetSpan s.mixture_frame_roll (bgn_frame st f n)
          (end_frame st ss f n) ((n.pitch : ℤ) - BEGIN_NOTE) 1).bind fun mf =>
      (npSetCell s.sep_onset_roll (bgn_frame st f n)
          ((n.pitch : ℤ) - BEGIN_NOTE) 1).bind fun so =>
      (npSetSpan s.sep_frame_roll (bgn_frame st f n)
          (end_frame st ss f n) ((n.pitch : ℤ) - BEGIN_NOTE) 1).bind fun sf =>
      if n.start < st ∧ st < n.end_ ∧ n.end_ < st + ss then
        (npSetSpan mf 0 (end_frame st ss f n)
            ((n.pitch : ℤ) - BEGIN_NOTE) 1).bind fun mf2 =>
        (npSetSpan sf 0 (end_frame st ss f n)
            ((n.pitch : ℤ) - BEGIN_NOTE) 1).bind fun sf2 =>
        some ⟨mo, mf2, so, sf2⟩
      else some ⟨mo, mf, so, sf⟩
    else some s
  else some s

/-- The freshly allocated rolls of lines 1222–1223 and 1237–1238:
`np.zeros((frames_num, self.piano_notes_num))` each. -/
def encodeInit (ss : ℚ) (f : ℕ) : EncodeState :=
  ⟨np_zeros (framesNum ss f) CLASSES_NUM, np_zeros (framesNum ss f) CLASSES_NUM,
   np_zeros (framesNum ss f) CLASSES_NUM, np_zeros (framesNum ss f) CLASSES_NUM⟩

/-- Encoding one stem: fold the per-note loop body over the stem's note
events, starting from zero-filled rolls. -/
def encodeStem (st ss : ℚ) (f : ℕ) (notes : List NoteEv) :
    Option EncodeState :=
  notes.foldlM (encodeNote st ss f) (encodeInit ss f)

/-- Function `get_single_note_onset_roll` (lines 710–733): a
`(frames_num, piano_notes_num)` zero roll with a triangular onset bump of
width `J = 5` around `center_idx = frames_num // 2` in column
`piano_note`. -/
def get_single_note_onset_roll (segment_seconds : ℚ)
    (frames_per_second : ℕ) (piano_notes_num : ℕ) (piano_note : ℕ) :
    Option NpRoll :=
  (List.range 5).foldlM
    (fun r (i : ℕ) =>
      (npSetCell r
          ((((pyInt (segment_seconds * frames_per_second + 1)).toNat / 2 : ℕ) : ℤ)
            - (i : ℤ))
          piano_note (1 - (1 / 5 : ℚ) * (i : ℚ))).bind fun r1 =>
        npSetCell r1
          ((((pyInt (segment_seconds * frames_per_second + 1)).toNat / 2 : ℕ) : ℤ)
            + (i : ℤ))
          piano_note (1 - (1 / 5 : ℚ) * (i : ℚ)))
    (np_zeros (pyInt (segment_seconds * frames_per_second + 1)).toNat
      piano_notes_num)

lemma npIndex_of_lt {n : ℕ} {i : ℤ} (h1 : 0 ≤ i) (h2 : i < n) :
    npIndex n i = some i.toNat := by
  unfold npIndex
  rw [if_pos ⟨h1, h2⟩]

lemma npIndex_of_neg {n : ℕ} {i : ℤ} (h1 : -(n : ℤ) ≤ i) (h2 : i < 0) :
    npIndex n i = some (i + n).toNat := by
  unfold npIndex
  rw [if_neg (by omega), if_pos ⟨h1, h2⟩]

lemma npSetCell_eq {r : NpRoll} {i j : ℤ} {a b : ℕ} (v : ℚ)
    (hi : npIndex r.rows i = some a) (hj : npIndex r.cols j = some b) :
    npSetCell r i j v
      = some ⟨r.rows, r.cols,
          fun x y => if x = a ∧ y = b then v else r.entry x y⟩ := by
  unfold npSetCell
  rw [hi, hj]

lemma npSetSpan_eq {r : NpRoll} {j : ℤ} {c : ℕ} (b e : ℤ) (v : ℚ)
    (hj : npIndex r.cols j = some c) :
    npSetSpan r b e j v
      = some ⟨r.rows, r.cols,
          fun x y =>
            if pySliceBound r.rows b ≤ x ∧ x < pySliceBound r.rows e ∧ y = c
            then v else r.entry x y⟩ := by
  unfold npSetSpan
  rw [hj]

lemma pyInt_eq_floor {q : ℚ} (h : 0 ≤ q) : pyInt q = ⌊q⌋ := by
  unfold pyInt
  rw [if_pos h]

lemma pyInt_nonpos {q : ℚ} (h : q ≤ 0) : pyInt q ≤ 0 := by
  unfold pyInt
  rcases eq_or_lt_of_le h with rfl | hlt
  · simp
  · rw [if_neg (by exact fun c => absurd (lt_of_lt_of_le hlt c) (lt_irrefl _))]
    exact Int.ceil_le.mpr (by exact_mod_cast h)

lemma framesNum_eq {ss : ℚ} (f : ℕ) (hss : 0 ≤ ss) :
    framesNum ss f = (⌊(f : ℚ) * ss⌋).toNat + 1 := by
  unfold framesNum
  rw [pyInt_eq_floor (by positivity)]
  have h : 0 ≤ ⌊(f : ℚ) * ss⌋ := Int.floor_nonneg.mpr (by positivity)
  omega

lemma framesNum_pos {ss : ℚ} (f : ℕ) (hss : 0 ≤ ss) :
    0 < framesNum ss f := by
  rw [framesNum_eq f hss]
  omega

lemma bgn_frame_lt {st ss : ℚ} {f : ℕ} {n : NoteEv} (hss : 0 ≤ ss)
    (hwf : n.start ≤ n.end_) (hov : overlaps st ss n) :
    bgn_frame st f n < framesNum ss f := by
  have hb : n.start - st ≤ ss := by
    rcases hov with ⟨_, h2⟩ | ⟨_, h2⟩
    · linarith
    · linarith
  unfold bgn_frame
  rw [framesNum_eq f hss]
  rcases le_or_lt (n.start - st) 0 with hle | hpos
  · have := pyInt_nonpos (q := (n.start - st) * f) (by
      apply mul_nonpos_of_nonpos_of_nonneg hle (by positivity))
    omega
  · rw [pyInt_eq_floor (by positivity)]
    have hmono : ⌊(n.start - st) * (f : ℚ)⌋ ≤ ⌊(f : ℚ) * ss⌋ := by
      apply Int.floor_le_floor
      rw [mul_comm (f : ℚ) ss]
      exact mul_le_mul_of_nonneg_right hb (by positivity)
    have h0 : 0 ≤ ⌊(n.start - st) * (f : ℚ)⌋ := Int.floor_nonneg.mpr (by positivity)
    omega

lemma pySliceBound_natCast (n m : ℕ) : pySliceBound n (m : ℤ) = min m n := by
  unfold pySliceBound
  rw [if_neg (by omega)]
  simp

lemma pySliceBound_zero (n : ℕ) : pySliceBound n 0 = 0 := by
  have h := pySliceBound_natCast n 0
  simpa using h

/-- The shape invariant of an encoding state: all four rolls are
`R × CLASSES_NUM`. -/
def GoodState (R : ℕ) (s : EncodeState) : Prop :=
  s.mixture_onset_roll.rows = R ∧ s.mixture_onset_roll.cols = CLASSES_NUM ∧
  s.mixture_frame_roll.rows = R ∧ s.mixture_frame_roll.cols = CLASSES_NUM ∧
  s.sep_onset_roll.rows = R ∧ s.sep_onset_roll.cols = CLASSES_NUM ∧
  s.sep_frame_roll.rows = R ∧ s.sep_frame_roll.cols = CLASSES_NUM

lemma goodState_encodeInit (ss : ℚ) (f : ℕ) :
    GoodState (framesNum ss f) (encodeInit ss f) :=
  ⟨rfl, rfl, rfl, rfl, rfl, rfl, rfl, rfl⟩

/-- Central helper: when the overlap test passes, the pitch guard passes and
the column index resolves to `c`, the loop body succeeds and the resulting
state carries the onset marker at `(bgn_frame, c)` in both onset rolls and
an active span `[bgn_frame, end_frame)` at column `c` in both frame
rolls. -/
lemma encodeNote_marks {st ss : ℚ} {f : ℕ} {s : EncodeState} {n : NoteEv}
    {R c : ℕ}
    (hgood : GoodState R s)
    (hov : overlaps st ss n)
    (hguard : (n.pitch : ℤ) - BEGIN_NOTE < (CLASSES_NUM : ℤ))
    (hcol : npIndex CLASSES_NUM ((n.pitch : ℤ) - BEGIN_NOTE) = some c)
    (hrow : bgn_frame st f n < R) :
    ∃ s', encodeNote st ss f s n = some s' ∧ GoodState R s' ∧
      s'.mixture_onset_roll.entry (bgn_frame st f n) c = 1 ∧
      s'.sep_onset_roll.entry (bgn_frame st f n) c = 1 ∧
      (∀ x, bgn_frame st f n ≤ x →
        x < pySliceBound R (end_frame st ss f n) →
        s'.mixture_frame_roll.entry x c = 1 ∧
        s'.sep_frame_roll.entry x c = 1) := by
  obtain ⟨e1, e2, e3, e4, e5, e6, e7, e8⟩ := hgood
  set bgn := bgn_frame st f n with hbgn
  set endF := end_frame st ss f n with hendF
  set p := (n.pitch : ℤ) - (BEGIN_NOTE : ℤ) with hp
  have hIdx : npIndex R (bgn : ℤ) = some bgn := by
    rw [npIndex_of_lt (by omega) (by exact_mod_cast hrow)]
    simp
  have hmo := npSetCell_eq (r := s.mixture_onset_roll) 1
    (by rw [e1]; exact hIdx) (by rw [e2]; exact hcol)
  have hmf := npSetSpan_eq (r := s.mixture_frame_roll) (bgn : ℤ) endF 1
    (by rw [e4]; exact hcol)
  have hso := npSetCell_eq (r := s.sep_onset_roll) 1
    (by rw [e5]; exact hIdx) (by rw [e6]; exact hcol)
  have hsf := npSetSpan_eq (r := s.sep_frame_roll) (bgn : ℤ) endF 1
    (by rw [e8]; exact hcol)
  have hred : encodeNote st ss f s n
      = if n.start < st ∧ st < n.end_ ∧ n.end_ < st + ss then
          (npSetSpan ⟨s.mixture_frame_roll.rows, s.mixture_frame_roll.cols,
            fun x y =>
              if pySliceBound s.mixture_frame_roll.rows (bgn : ℤ) ≤ x ∧
                  x < pySliceBound s.mixture_frame_roll.rows endF ∧ y = c
              then 1 else s.mixture_frame_roll.entry x y⟩
            0 endF p 1).bind fun mf2 =>
          (npSetSpan ⟨s.sep_frame_roll.rows, s.sep_frame_roll.cols,
            fun x y =>
              if pySliceBound s.sep_frame_roll.rows (bgn : ℤ) ≤ x ∧
                  x < pySliceBound s.sep_frame_roll.rows endF ∧ y = c
              then 1 else s.sep_frame_roll.entry x y⟩
            0 endF p 1).bind fun sf2 =>
          some ⟨⟨s.mixture_onset_roll.rows, s.mixture_onset_roll.cols,
              fun x y => if x = bgn ∧ y = c then 1
                else s.mixture_onset_roll.entry x y⟩,
            mf2,
            ⟨s.sep_onset_roll.rows, s.sep_onset_roll.cols,
              fun x y => if x = bgn ∧ y = c then 1
                else s.sep_onset_roll.entry x y⟩,
            sf2⟩
        else some
          ⟨⟨s.mixture_onset_roll.rows, s.mixture_onset_roll.cols,
              fun x y => if x = bgn ∧ y = c then 1
                else s.mixture_onset_roll.entry x y⟩,
            ⟨s.mixture_frame_roll.rows, s.mixture_frame_roll.cols,
              fun x y =>
                if pySliceBound s.mixture_frame_roll.rows (bgn : ℤ) ≤ x ∧
                    x < pySliceBound s.mixture_frame_roll.rows endF ∧ y = c
                then 1 else s.mixture_frame_roll.entry x y⟩,
            ⟨s.sep_onset_roll.rows, s.sep_onset_roll.cols,
              fun x y => if x = bgn ∧ y = c then 1
                else s.sep_onset_roll.entry x y⟩,
            ⟨s.sep_frame_roll.rows, s.sep_frame_roll.cols,
              fun x y =>
                if pySliceBound s.sep_frame_roll.rows (bgn : ℤ) ≤ x ∧
                    x < pySliceBound s.sep_frame_roll.rows endF ∧ y = c
                then 1 else s.sep_frame_roll.entry x y⟩⟩ := by
    unfold encodeNote
    rw [if_pos hov, if_pos hguard, ← hbgn, ← hendF, ← hp, hmo, hmf, hso, hsf]
    rfl
  have hbound : pySliceBound s.mixture_frame_roll.rows (bgn : ℤ) = bgn := by
    rw [e3, pySliceBound_natCast]
    omega
  have hbound2 : pySliceBound s.sep_frame_roll.rows (bgn : ℤ) = bgn := by
    rw [e7, pySliceBound_natCast]
    omega
  by_cases hbr : n.start < st ∧ st < n.end_ ∧ n.end_ < st + ss
  · rw [hred, if_pos hbr]
    have hmf2 := npSetSpan_eq
      (r := (⟨s.mixture_frame_roll.rows, s.mixture_frame_roll.cols,
        fun x y =>
          if pySliceBound s.mixture_frame_roll.rows (bgn : ℤ) ≤ x ∧
              x < pySliceBound s.mixture_frame_roll.rows endF ∧ y = c
          then 1 else s.mixture_frame_roll.entry x y⟩ : NpRoll))
      0 endF 1 (by rw [show (⟨s.mixture_frame_roll.rows, s.mixture_frame_roll.cols, _⟩ : NpRoll).cols = s.mixture_frame_roll.cols from rfl, e4]; exact hcol)
    have hsf2 := npSetSpan_eq
      (r := (⟨s.sep_frame_roll.rows, s.sep_frame_roll.cols,
        fun x y =>
          if pySliceBound s.sep_frame_roll.rows (bgn : ℤ) ≤ x ∧
              x < pySliceBound s.sep_frame_roll.rows endF ∧ y = c
          then 1 else s.sep_frame_roll.entry x y⟩ : NpRoll))
      0 endF 1 (by rw [show (⟨s.sep_frame_roll.rows, s.sep_frame_roll.cols, _⟩ : NpRoll).cols = s.sep_frame_roll.cols from rfl, e8]; exact hcol)
    rw [hmf2, hsf2]
    refine ⟨_, rfl, ⟨e1, e2, e3, e4, e5, e6, e7, e8⟩, by simp, by simp, ?_⟩
    intro x hx1 hx2
    constructor
    · show (if pySliceBound s.mixture_frame_roll.rows 0 ≤ x ∧
          x < pySliceBound s.mixture_frame_roll.rows endF ∧ c = c
        then (1 : ℚ) else _) = 1
      rw [if_pos ⟨by rw [pySliceBound_zero]; omega, by rw [e3]; exact hx2, rfl⟩]
    · show (if pySliceBound s.sep_frame_roll.rows 0 ≤ x ∧
          x < pySliceBound s.sep_frame_roll.rows endF ∧ c = c
        then (1 : ℚ) else _) = 1
      rw [if_pos ⟨by rw [pySliceBound_zero]; omega, by rw [e7]; exact hx2, rfl⟩]
  · rw [hred, if_neg hbr]
    refine ⟨_, rfl, ⟨e1, e2, e3, e4, e5, e6, e7, e8⟩, by simp, by simp, ?_⟩
    intro x hx1 hx2
    constructor
    · show (if pySliceBound s.mixture_frame_roll.rows (bgn : ℤ) ≤ x ∧
          x < pySliceBound s.mixture_frame_roll.rows endF ∧ c = c
        then (1 : ℚ) else _) = 1
      rw [if_pos ⟨by rw [hbound]; exact hx1, by rw [e3]; exact hx2, rfl⟩]
    · show (if pySliceBound s.sep_frame_roll.rows (bgn : ℤ) ≤ x ∧
          x < pySliceBound s.sep_frame_roll.rows endF ∧ c = c
        then (1 : ℚ) else _) = 1
      rw [if_pos ⟨by rw [hbound2]; exact hx1, by rw [e7]; exact hx2, rfl⟩]

lemma npIndex_in_range {p : ℕ} (hp1 : BEGIN_NOTE ≤ p)
    (hp2 : p < BEGIN_NOTE + CLASSES_NUM) :
    npIndex CLASSES_NUM ((p : ℤ) - BEGIN_NOTE) = some (p - BEGIN_NOTE) := by
  have hB : BEGIN_NOTE = 21 := rfl
  have hC : CLASSES_NUM = 88 := rfl
  rw [npIndex_of_lt (by omega) (by omega)]
  congr 1
  omega

lemma encodeStem_singleton (st ss : ℚ) (f : ℕ) (n : NoteEv) :
    encodeStem st ss f [n] = encodeNote st ss f (encodeInit ss f) n := by
  unfold encodeStem
  show (encodeNote st ss f (encodeInit ss f) n).bind _ = _
  cases encodeNote st ss f (encodeInit ss f) n <;> rfl

/-- Claim C6, amended: A note event contributes to the rolls exactly when its
onset or its offset lies **strictly inside the open window**
`(start_time, start_time + segment_seconds)` (the test of lines 1241–1242
uses strict inequalities on both sides): such a note, with an in-range
pitch, yields an onset marker at `(bgn_frame, pitch - begin_note)` and an
active span over `[bgn_frame, end_frame)` in the stem's rolls. A note
merely overlapping the closed window — e.g. spanning it entirely, or
touching only a boundary — is skipped (see the counterexample). -/
theorem note_strictly_inside_contributes (st ss : ℚ) (f : ℕ) (n : NoteEv)
    (hss : 0 ≤ ss) (hwf : n.start ≤ n.end_)
    (hov : overlaps st ss n)
    (hp1 : BEGIN_NOTE ≤ n.pitch) (hp2 : n.pitch < BEGIN_NOTE + CLASSES_NUM) :
    ∃ s', encodeStem st ss f [n] = some s' ∧
      s'.sep_onset_roll.entry (bgn_frame st f n) (n.pitch - BEGIN_NOTE) = 1 ∧
      ∀ x, bgn_frame st f n ≤ x →
        x < pySliceBound (framesNum ss f) (end_frame st ss f n) →
        s'.sep_frame_roll.entry x (n.pitch - BEGIN_NOTE) = 1 := by
  have hB : BEGIN_NOTE = 21 := rfl
  have hC : CLASSES_NUM = 88 := rfl
  obtain ⟨s', h1, _, _, h4, h5⟩ := encodeNote_marks
    (goodState_encodeInit ss f) hov (by omega)
    (npIndex_in_range hp1 hp2) (bgn_frame_lt hss hwf hov)
  refine ⟨s', ?_, h4, fun x hx1 hx2 => (h5 x hx1 hx2).2⟩
  rw [encodeStem_singleton]
  exact h1

/-- Witness for `note_strictly_inside_contributes` at a concrete input. -/
theorem note_strictly_inside_contributes_witness :
    ∃ s', encodeStem 0 2 100 [⟨1/2, 1, 60⟩] = some s' ∧
      s'.sep_onset_roll.entry (bgn_frame 0 100 ⟨1/2, 1, 60⟩)
        (60 - BEGIN_NOTE) = 1 ∧
      ∀ x, bgn_frame 0 100 ⟨1/2, 1, 60⟩ ≤ x →
        x < pySliceBound (framesNum 2 100) (end_frame 0 2 100 ⟨1/2, 1, 60⟩) →
        s'.sep_frame_roll.entry x (60 - BEGIN_NOTE) = 1 :=
  note_strictly_inside_contributes 0 2 100 ⟨1/2, 1, 60⟩ (by norm_num)
    (by norm_num) (Or.inl ⟨by norm_num, by norm_num⟩)
    (by norm_num [BEGIN_NOTE]) (by norm_num [BEGIN_NOTE, CLASSES_NUM])

/-- Claim C6, counterexample: The note `[-1, 3]` overlaps the whole window
`[0, 2]` (in the closed-interval sense of the claim) yet is skipped by the
strict test of lines 1241–1242: the encoding state is returned unchanged
and no onset marker is written. -/
theorem spanning_note_skipped :
    (⟨-1, 3, 60⟩ : NoteEv).start ≤ (0 : ℚ) + 2 ∧
    (0 : ℚ) ≤ (⟨-1, 3, 60⟩ : NoteEv).end_ ∧
    encodeStem 0 2 100 [⟨-1, 3, 60⟩] = some (encodeInit 2 100) ∧
    (encodeInit 2 100).sep_onset_roll.entry
      (bgn_frame 0 100 ⟨-1, 3, 60⟩) (60 - BEGIN_NOTE) = 0 := by
  have hnov : ¬ overlaps (0 : ℚ) 2 ⟨-1, 3, 60⟩ := by
    unfold overlaps
    norm_num
  have h1 : encodeNote 0 2 100 (encodeInit 2 100) ⟨-1, 3, 60⟩
      = some (encodeInit 2 100) := by
    unfold encodeNote
    rw [if_neg hnov]
  refine ⟨by norm_num, by norm_num, ?_, rfl⟩
  rw [encodeStem_singleton, h1]

/-- Claim C5, counterexample: For a note with segment-local onset `0.017 s`
at 100 frames/s, the exact frame position is `1.7`: the nearest frame is
`2`, but the code's `int()` truncation (line 1244) places the onset marker
at frame `1`. -/
theorem onset_frame_not_nearest :
    bgn_frame 0 100 ⟨17/1000, 1, 60⟩ = 1 ∧
    round (((⟨17/1000, 1, 60⟩ : NoteEv).start - 0) * (100 : ℚ)) = 2 ∧
    (1 : ℕ) ≠ 2 := by
  refine ⟨?_, ?_, by norm_num⟩
  · unfold bgn_frame pyInt
    norm_num
  · show round ((17/1000 - 0 : ℚ) * 100) = 2
    rw [round_eq]
    norm_num

/-- Claim C5, amended: The onset marker is placed at the **truncation**
(floor, for an onset at or after the window start), not the rounding, of
`(onset_time - start_time) × frames_per_second`, clamped at `0`: for
`start_time ≤ onset_time` the frame index is
`⌊(onset - start) * fps⌋`, and the marker lands in that row of the stem's
onset roll. -/
theorem onset_frame_truncates (st ss : ℚ) (f : ℕ) (n : NoteEv)
    (hss : 0 ≤ ss) (hwf : n.start ≤ n.end_) (hst : st ≤ n.start)
    (hov : overlaps st ss n)
    (hp1 : BEGIN_NOTE ≤ n.pitch) (hp2 : n.pitch < BEGIN_NOTE + CLASSES_NUM) :
    bgn_frame st f n = (⌊(n.start - st) * (f : ℚ)⌋).toNat ∧
    ∃ s', encodeStem st ss f [n] = some s' ∧
      s'.sep_onset_roll.entry ((⌊(n.start - st) * (f : ℚ)⌋).toNat)
        (n.pitch - BEGIN_NOTE) = 1 := by
  have hB : BEGIN_NOTE = 21 := rfl
  have hC : CLASSES_NUM = 88 := rfl
  have heq : bgn_frame st f n = (⌊(n.start - st) * (f : ℚ)⌋).toNat := by
    unfold bgn_frame
    rw [pyInt_eq_floor (by
      apply mul_nonneg _ (by positivity)
      linarith)]
    have h0 : 0 ≤ ⌊(n.start - st) * (f : ℚ)⌋ :=
      Int.floor_nonneg.mpr (by
        apply mul_nonneg _ (by positivity)
        linarith)
    omega
  obtain ⟨s', h1, _, _, h4, _⟩ := encodeNote_marks
    (goodState_encodeInit ss f) hov (by omega)
    (npIndex_in_range hp1 hp2) (bgn_frame_lt hss hwf hov)
  refine ⟨heq, s', ?_, ?_⟩
  · rw [encodeStem_singleton]
    exact h1
  · rw [← heq]
    exact h4

/-- Witness for `onset_frame_truncates` at a concrete input. -/
theorem onset_frame_truncates_witness :
    bgn_frame 0 2 ⟨1/2, 1, 60⟩ = (⌊((1/2 : ℚ) - 0) * (2 : ℚ)⌋).toNat :=
  (onset_frame_truncates 0 2 2 ⟨1/2, 1, 60⟩ (by norm_num) (by norm_num)
    (by norm_num) (Or.inl ⟨by norm_num, by norm_num⟩)
    (by norm_num [BEGIN_NOTE]) (by norm_num [BEGIN_NOTE, CLASSES_NUM])).1

/-- Claim C7: A note starting before the window and ending strictly inside it
has its active span left-clamped to frame `0`: the clamped start frame
`bgn_frame` is exactly `0` (so no write ever uses a negative frame index —
row indices are the natural numbers produced by the `max(0, ·)` clamp of
line 1245), and whenever the clamped span is nonempty the frame roll is
marked at row `0`. -/
theorem before_window_left_clamped (st ss : ℚ) (f : ℕ) (n : NoteEv)
    (hss : 0 ≤ ss)
    (h1 : n.start < st) (h2 : st < n.end_) (h3 : n.end_ < st + ss)
    (hp1 : BEGIN_NOTE ≤ n.pitch) (hp2 : n.pitch < BEGIN_NOTE + CLASSES_NUM) :
    bgn_frame st f n = 0 ∧
    ∃ s', encodeStem st ss f [n] = some s' ∧
      (0 < pySliceBound (framesNum ss f) (end_frame st ss f n) →
        s'.sep_frame_roll.entry 0 (n.pitch - BEGIN_NOTE) = 1) := by
  have hB : BEGIN_NOTE = 21 := rfl
  have hC : CLASSES_NUM = 88 := rfl
  have hov : overlaps st ss n := Or.inr ⟨h2, h3⟩
  have hwf : n.start ≤ n.end_ := by linarith
  have hzero : bgn_frame st f n = 0 := by
    unfold bgn_frame
    have := pyInt_nonpos (q := (n.start - st) * f)
      (mul_nonpos_of_nonpos_of_nonneg (by linarith) (by positivity))
    omega
  obtain ⟨s', hs1, _, _, _, h5⟩ := encodeNote_marks
    (goodState_encodeInit ss f) hov (by omega)
    (npIndex_in_range hp1 hp2) (bgn_frame_lt hss hwf hov)
  refine ⟨hzero, s', ?_, ?_⟩
  · rw [encodeStem_singleton]
    exact hs1
  · intro hpos
    exact (h5 0 (by omega) hpos).2

/-- Witness for `before_window_left_clamped` at a concrete input. -/
theorem before_window_left_clamped_witness :
    bgn_frame 2 100 ⟨1, 3, 60⟩ = 0 :=
  (before_window_left_clamped 2 2 100 ⟨1, 3, 60⟩ (by norm_num) (by norm_num)
    (by norm_num) (by norm_num)
    (by norm_num [BEGIN_NOTE]) (by norm_num [BEGIN_NOTE, CLASSES_NUM])).1

/-- Claim C10: For a note whose MIDI pitch lies below `begin_note`, the pitch
column `pitch - begin_note` is negative; the guard of line 1252 checks only
the upper bound and passes, the NumPy write wraps the negative column to
`pitch + (piano_notes_num - begin_note)` — one of the highest pitch columns
(index ≥ `piano_notes_num - begin_note`) — and the onset marker is written
there; no `IndexError` is raised for any MIDI pitch below `begin_note +
piano_notes_num`. -/
theorem low_pitch_wraps (st ss : ℚ) (f : ℕ) (n : NoteEv)
    (hss : 0 ≤ ss) (hwf : n.start ≤ n.end_) (hov : overlaps st ss n)
    (hlow : n.pitch < BEGIN_NOTE) :
    ((n.pitch : ℤ) - BEGIN_NOTE < (CLASSES_NUM : ℤ)) ∧
    npIndex CLASSES_NUM ((n.pitch : ℤ) - BEGIN_NOTE)
      = some (n.pitch + (CLASSES_NUM - BEGIN_NOTE)) ∧
    CLASSES_NUM - BEGIN_NOTE ≤ n.pitch + (CLASSES_NUM - BEGIN_NOTE) ∧
    (∀ p : ℕ, p < BEGIN_NOTE + CLASSES_NUM →
      (npIndex CLASSES_NUM ((p : ℤ) - BEGIN_NOTE)).isSome = true) ∧
    ∃ s', encodeStem st ss f [n] = some s' ∧
      s'.sep_onset_roll.entry (bgn_frame st f n)
        (n.pitch + (CLASSES_NUM - BEGIN_NOTE)) = 1 := by
  have hB : BEGIN_NOTE = 21 := rfl
  have hC : CLASSES_NUM = 88 := rfl
  have hcol : npIndex CLASSES_NUM ((n.pitch : ℤ) - BEGIN_NOTE)
      = some (n.pitch + (CLASSES_NUM - BEGIN_NOTE)) := by
    rw [npIndex_of_neg (by omega) (by omega)]
    congr 1
    omega
  refine ⟨by omega, hcol, by omega, ?_, ?_⟩
  · intro p hp
    rcases lt_or_le p BEGIN_NOTE with h | h
    · rw [npIndex_of_neg (by omega) (by omega)]
      rfl
    · rw [npIndex_of_lt (by omega) (by omega)]
      rfl
  · obtain ⟨s', h1, _, _, h4, _⟩ := encodeNote_marks
      (goodState_encodeInit ss f) hov (by omega)
      hcol (bgn_frame_lt hss hwf hov)
    refine ⟨s', ?_, h4⟩
    rw [encodeStem_singleton]
    exact h1

/-- Witness for `low_pitch_wraps` at a concrete input: pitch `10 < 21`
wraps to column `10 + 67 = 77`. -/
theorem low_pitch_wraps_witness :
    npIndex CLASSES_NUM ((10 : ℤ) - BEGIN_NOTE)
      = some (10 + (CLASSES_NUM - BEGIN_NOTE)) :=
  (low_pitch_wraps 0 2 100 ⟨1/2, 1, 10⟩ (by norm_num) (by norm_num)
    (Or.inl ⟨by norm_num, by norm_num⟩)
    (by norm_num [BEGIN_NOTE])).2.1

lemma npSetCell_shape {r r' : NpRoll} {i j : ℤ} {v : ℚ}
    (h : npSetCell r i j v = some r') : r'.rows = r.rows ∧ r'.cols = r.cols := by
  unfold npSetCell at h
  cases h1 : npIndex r.rows i <;> rw [h1] at h
  · cases h
  · cases h2 : npIndex r.cols j <;> rw [h2] at h
    · cases h
    · simp only [Option.some_inj] at h
      subst h
      exact ⟨rfl, rfl⟩

lemma npSetSpan_shape {r r' : NpRoll} {b e j : ℤ} {v : ℚ}
    (h : npSetSpan r b e j v = some r') :
    r'.rows = r.rows ∧ r'.cols = r.cols := by
  unfold npSetSpan at h
  cases h1 : npIndex r.cols j <;> rw [h1] at h
  · cases h
  · simp only [Option.some_inj] at h
    subst h
    exact ⟨rfl, rfl⟩

lemma encodeNote_good {st ss : ℚ} {f : ℕ} {s s' : EncodeState} {n : NoteEv}
    {R : ℕ} (hg : GoodState R s) (h : encodeNote st ss f s n = some s') :
    GoodState R s' := by
  obtain ⟨e1, e2, e3, e4, e5, e6, e7, e8⟩ := hg
  unfold encodeNote at h
  by_cases hov : overlaps st ss n
  · rw [if_pos hov] at h
    by_cases hgd : (n.pitch : ℤ) - BEGIN_NOTE < (CLASSES_NUM : ℤ)
    · rw [if_pos hgd] at h
      rw [Option.bind_eq_some] at h
      obtain ⟨mo, hmo, h⟩ := h
      rw [Option.bind_eq_some] at h
      obtain ⟨mf, hmf, h⟩ := h
      rw [Option.bind_eq_some] at h
      obtain ⟨so, hso, h⟩ := h
      rw [Option.bind_eq_some] at h
      obtain ⟨sf, hsf, h⟩ := h
      obtain ⟨c1, c2⟩ := npSetCell_shape hmo
      obtain ⟨d1, d2⟩ := npSetSpan_shape hmf
      obtain ⟨g1, g2⟩ := npSetCell_shape hso
      obtain ⟨k1, k2⟩ := npSetSpan_shape hsf
      by_cases hbr : n.start < st ∧ st < n.end_ ∧ n.end_ < st + ss
      · rw [if_pos hbr] at h
        rw [Option.bind_eq_some] at h
        obtain ⟨mf2, hmf2, h⟩ := h
        rw [Option.bind_eq_some] at h
        obtain ⟨sf2, hsf2, h⟩ := h
        obtain ⟨m1, m2⟩ := npSetSpan_shape hmf2
        obtain ⟨q1, q2⟩ := npSetSpan_shape hsf2
        simp only [Option.some_inj] at h
        subst h
        exact ⟨by rw [c1, e1], by rw [c2, e2], by rw [m1, d1, e3],
          by rw [m2, d2, e4], by rw [g1, e5], by rw [g2, e6],
          by rw [q1, k1, e7], by rw [q2, k2, e8]⟩
      · rw [if_neg hbr] at h
        simp only [Option.some_inj] at h
        subst h
        exact ⟨by rw [c1, e1], by rw [c2, e2], by rw [d1, e3], by rw [d2, e4],
          by rw [g1, e5], by rw [g2, e6], by rw [k1, e7], by rw [k2, e8]⟩
    · rw [if_neg hgd] at h
      simp only [Option.some_inj] at h
      subst h
      exact ⟨e1, e2, e3, e4, e5, e6, e7, e8⟩
  · rw [if_neg hov] at h
    simp only [Option.some_inj] at h
    subst h
    exact ⟨e1, e2, e3, e4, e5, e6, e7, e8⟩

lemma foldlM_option_preserves {α σ : Type} (P : σ → Prop)
    (f2 : σ → α → Option σ)
    (hf : ∀ s a s', P s → f2 s a = some s' → P s') :
    ∀ (l : List α) (s s' : σ), P s → List.foldlM f2 s l = some s' → P s' := by
  intro l
  induction l with
  | nil =>
    intro s s' hP h
    rw [List.foldlM_nil] at h
    simp only [pure, Option.some_inj] at h
    subst h
    exact hP
  | cons a as ih =>
    intro s s' hP h
    rw [List.foldlM_cons] at h
    rw [show ((f2 s a) >>= fun b => List.foldlM f2 b as)
        = (f2 s a).bind fun b => List.foldlM f2 b as from rfl,
      Option.bind_eq_some] at h
    obtain ⟨s1, h1, h2⟩ := h
    exact ih s1 s' (hf s a s1 hP h1) h2

/-- Claim C9: Every frame roll produced by the encoding paths has row count
`⌊segment_seconds × frames_per_second⌋ + 1` and pitch count equal to the
configured number of note classes: all four rolls of
`DatasetInstrumentsCluster.__getitem__` (allocated at lines 1222–1223 and
1237–1238 with `frames_num = int(fps * seconds) + 1` and preserved by every
write), and the roll of `get_single_note_onset_roll` (allocated at
lines 723–725 with `frames_num = int(seconds * fps + 1)`). -/
theorem frame_roll_shape (ss : ℚ) (f : ℕ) (hss : 0 ≤ ss) :
    (∀ (st : ℚ) (notes : List NoteEv) (s' : EncodeState),
      encodeStem st ss f notes = some s' →
      s'.mixture_onset_roll.rows = (⌊(f : ℚ) * ss⌋).toNat + 1 ∧
      s'.mixture_onset_roll.cols = CLASSES_NUM ∧
      s'.mixture_frame_roll.rows = (⌊(f : ℚ) * ss⌋).toNat + 1 ∧
      s'.mixture_frame_roll.cols = CLASSES_NUM ∧
      s'.sep_onset_roll.rows = (⌊(f : ℚ) * ss⌋).toNat + 1 ∧
      s'.sep_onset_roll.cols = CLASSES_NUM ∧
      s'.sep_frame_roll.rows = (⌊(f : ℚ) * ss⌋).toNat + 1 ∧
      s'.sep_frame_roll.cols = CLASSES_NUM) ∧
    (∀ (pn note : ℕ) (r' : NpRoll),
      get_single_note_onset_roll ss f pn note = some r' →
      r'.rows = (⌊(f : ℚ) * ss⌋).toNat + 1 ∧ r'.cols = pn) := by
  constructor
  · intro st notes s' h
    have hgood : GoodState (framesNum ss f) s' :=
      foldlM_option_preserves (GoodState (framesNum ss f))
        (encodeNote st ss f)
        (fun s a s' hP ha => encodeNote_good hP ha)
        notes (encodeInit ss f) s' (goodState_encodeInit ss f) h
    rw [framesNum_eq f hss] at hgood
    exact hgood
  · intro pn note r' h
    unfold get_single_note_onset_roll at h
    have hfnum : (pyInt (ss * f + 1)).toNat = (⌊(f : ℚ) * ss⌋).toNat + 1 := by
      rw [pyInt_eq_floor (by positivity),
        show (ss * (f : ℚ) + 1) = ss * (f : ℚ) + (1 : ℤ) by norm_num,
        Int.floor_add_int, mul_comm ss (f : ℚ)]
      have h0 : 0 ≤ ⌊(f : ℚ) * ss⌋ := Int.floor_nonneg.mpr (by positivity)
      omega
    refine foldlM_option_preserves
      (fun r : NpRoll => r.rows = (⌊(f : ℚ) * ss⌋).toNat + 1 ∧ r.cols = pn)
      _ ?_ (List.range 5) _ r' ⟨hfnum, rfl⟩ h
    intro r i r'' hP hstep
    rw [Option.bind_eq_some] at hstep
    obtain ⟨r1, hr1, hr2⟩ := hstep
    obtain ⟨a1, a2⟩ := npSetCell_shape hr1
    obtain ⟨b1, b2⟩ := npSetCell_shape hr2
    exact ⟨by rw [b1, a1, hP.1], by rw [b2, a2, hP.2]⟩

/-- Witness for `frame_roll_shape` at a concrete input: the empty stem at
`segment_seconds = 2`, `frames_per_second = 100` keeps the allocated
`201 × 88` shape. -/
theorem frame_roll_shape_witness :
    (encodeInit 2 100).sep_frame_roll.rows = (⌊(100 : ℚ) * 2⌋).toNat + 1 :=
  ((frame_roll_shape 2 100 (by norm_num)).1 0 [] (encodeInit 2 100)
    rfl).2.2.2.2.2.2.1

/-! ## Instrument-stem selection (lines 1263–1276)

`tmp` collects each stem's activity `np.sum(sep_frame_roll)` (line 1265);
`locts = np.argsort(tmp)[::-1]` (line 1272); the loop of lines 1274–1276
copies stems `locts[0], …, locts[min(max_instruments_num, len) - 1]` into
the output slots. NumPy's `argsort` (default quicksort/introsort) runs a
stable insertion sort for the small subarrays that arise here, so the
ascending sort keeps tied entries in original order; it is embedded as an
insertion sort by the lexicographic (activity, index) order, which is
exactly a stable ascending argsort. Reversing it puts tied stems in
**reverse** original order. -/

/-- The ascending comparison realized by a stable `np.argsort` on the
activity list: index `i` precedes `j` when its activity is smaller, or
equal with `i ≤ j`. -/
def argsortLe (tmp : List ℕ) (i j : ℕ) : Prop :=
  tmp.getD i 0 < tmp.getD j 0 ∨ (tmp.getD i 0 = tmp.getD j 0 ∧ i ≤ j)

instance (tmp : List ℕ) (i j : ℕ) : Decidable (argsortLe tmp i j) :=
  decidable_of_iff
    (tmp.getD i 0 < tmp.getD j 0 ∨ (tmp.getD i 0 = tmp.getD j 0 ∧ i ≤ j))
    Iff.rfl

/-- NumPy `np.argsort(tmp)`: the stable ascending argsort of the activity list. -/
def argsort (tmp : List ℕ) : List ℕ :=
  List.insertionSort (argsortLe tmp) (List.range tmp.length)

/-- Source `locts = np.argsort(tmp)[::-1]` (line 1272). -/
def locts (tmp : List ℕ) : List ℕ :=
  (argsort tmp).reverse

/-- The stem indices copied into the output slots by the loop
`for i in range(min(self.max_instruments_num, len(sep_frame_rolls)))`
(lines 1274–1276), in slot order. -/
def selectTop (max_instruments_num : ℕ) (tmp : List ℕ) : List ℕ :=
  (locts tmp).take (min max_instruments_num tmp.length)

instance (tmp : List ℕ) : IsTotal ℕ (argsortLe tmp) :=
  ⟨fun a b => by
    unfold argsortLe
    rcases lt_trichotomy (tmp.getD a 0) (tmp.getD b 0) with h | h | h
    · exact Or.inl (Or.inl h)
    · rcases le_total a b with hab | hab
      · exact Or.inl (Or.inr ⟨h, hab⟩)
      · exact Or.inr (Or.inr ⟨h.symm, hab⟩)
    · exact Or.inr (Or.inl h)⟩

instance (tmp : List ℕ) : IsTrans ℕ (argsortLe tmp) :=
  ⟨fun a b c hab hbc => by
    unfold argsortLe at hab hbc ⊢
    omega⟩

/-- Claim C1, counterexample: For activities `[5, 0, 3, 3]` and `K = 2` the
selector picks stems `0` and `3`: the activity-5 stem and the **last**
activity-3 stem, not the first one (`[0, 2]`) that the claim predicts. -/
theorem selector_tie_picks_last :
    selectTop 2 [5, 0, 3, 3] = [0, 3] ∧ ([0, 3] : List ℕ) ≠ [0, 2] := by
  constructor
  · decide
  · decide

/-- Claim C1, amended: The stem selector is a pure function of the activity
list, hence identical on every run; it ranks stems by descending activity
with ties broken by **reverse** original order (last-seen first): the slot
order `locts` is a permutation of the stem indices sorted so that an
earlier slot has strictly larger activity, or equal activity and a larger
original index. For activities `[5, 0, 3, 3]` and `K = 2` the selected
stems are the activity-5 stem and the **last** activity-3 stem. -/
theorem selector_ranking :
    (∀ tmp : List ℕ,
      (locts tmp).Perm (List.range tmp.length) ∧
      (locts tmp).Sorted (fun i j =>
        tmp.getD j 0 < tmp.getD i 0 ∨
        (tmp.getD j 0 = tmp.getD i 0 ∧ j ≤ i))) ∧
    selectTop 2 [5, 0, 3, 3] = [0, 3] := by
  constructor
  · intro tmp
    constructor
    · exact (List.reverse_perm _).trans (List.perm_insertionSort _ _)
    · unfold locts
      rw [List.Sorted, List.pairwise_reverse]
      exact List.sorted_insertionSort (argsortLe tmp) (List.range tmp.length)
  · decide

end Jointist
